import Mathlib

/-!
Verification of the monorm field/schema descriptor core.

The development shallowly embeds the source files `monorm/fields.py` and
`monorm/model.py`: Python runtime values become the inductive `Value`,
exceptions become the `Except Err` monad, ordered dicts become association
lists with Python dict insertion semantics (`dinsert` overwrites in place,
otherwise appends), and the descriptor classes become the mutual inductive
`FieldDesc`/`FieldKind`/`ModelDesc`.  Class identity of an embedded-model
class is modelled by its name.  Scalar field kinds not exercised by any
theorem below (float, bytes, datetime, object-id) follow exactly the same
non-recursive pattern as the modelled scalar kinds and are omitted.
-/

set_option maxHeartbeats 1000000

namespace Monorm

/-- A Python runtime value as seen by the monorm core.  `vdict` carries the
`_skip_validate` marker bit (an attribute the source sets on the returned
ordered dict in `EmbeddedField.convert`); an ordinary dict has the bit
`false`.  `vinst` is an instance of a model class, identified by the class
name, holding its `_data` backing map. -/
inductive Value where
  | vnull
  | vstr (s : String)
  | vint (n : Int)
  | vbool (b : Bool)
  | vlist (xs : List Value)
  | vtuple (xs : List Value)
  | vdict (skip : Bool) (entries : List (String × Value))
  | vinst (model : String) (data : List (String × Value))

/-- The `value is None` test of the source. -/
def Value.isNull : Value → Bool
  | .vnull => true
  | _ => false

/-- The error taxonomy: `ValidationError` for a required-but-absent field,
wrong runtime type (also the structural `ValueError`s of `convert`),
length/value bound violations and rejecting custom validators;
`fieldNotFound` for the `ValueError` of `ModelType._process_meta`;
`attrMissing` for the `AttributeError` of `Field.__get__`. -/
inductive Err where
  | missingField
  | typeMismatch
  | boundsViolation
  | validatorRejected
  | fieldNotFound
  | attrMissing
deriving DecidableEq, Repr

/-- Lookup in an ordered dict (first — and in a real dict only — binding). -/
def dlookup {α : Type} : List (String × α) → String → Option α
  | [], _ => none
  | (k, v) :: rest, key => if k = key then some v else dlookup rest key

/-- Python dict assignment `d[key] = val`: overwrite in place if the key is
present, else append at the end. -/
def dinsert {α : Type} : List (String × α) → String → α → List (String × α)
  | [], key, val => [(key, val)]
  | (k, v) :: rest, key, val =>
      if k = key then (k, val) :: rest else (k, v) :: dinsert rest key val

/-- Python dict `d.pop(key, None)`: drop the binding if present. -/
def dpop {α : Type} : List (String × α) → String → List (String × α)
  | [], _ => []
  | (k, v) :: rest, key => if k = key then rest else (k, v) :: dpop rest key

mutual

/-- The kind of a field descriptor, mirroring the subclass hierarchy of
`Field` in `fields.py` (bounds live on the string/number kinds). -/
inductive FieldKind where
  | stringK (maxLength minLength : Option Nat)
  | intK (maxValue minValue : Option Int)
  | boolK
  | anyK
  | listK
  | dictK
  | arrayK (elem : FieldDesc)
  | embeddedK (model : ModelDesc)

/-- A `Field` descriptor: external name (`self.name`), `required`, `default`
(the callable-factory case returns the same modelled value), optional
`converter` and `validator`, and the kind. -/
inductive FieldDesc where
  | mk (name : String) (required : Bool) (default : Value)
       (converter : Option (Value → Value)) (validator : Option (Value → Bool))
       (kind : FieldKind)

/-- An embedded-model class: its name, its `retain_none` flag and its fields
in `_field_order`, keyed by attribute name (the keys of the
`EmbeddedField.fields` dict). -/
inductive ModelDesc where
  | mk (name : String) (retainNone : Bool) (fields : List (String × FieldDesc))

end

def FieldDesc.name : FieldDesc → String
  | .mk n _ _ _ _ _ => n

def FieldDesc.required : FieldDesc → Bool
  | .mk _ r _ _ _ _ => r

def FieldDesc.default : FieldDesc → Value
  | .mk _ _ d _ _ _ => d

def FieldDesc.converter : FieldDesc → Option (Value → Value)
  | .mk _ _ _ c _ _ => c

def FieldDesc.validator : FieldDesc → Option (Value → Bool)
  | .mk _ _ _ _ v _ => v

def FieldDesc.kind : FieldDesc → FieldKind
  | .mk _ _ _ _ _ k => k

def ModelDesc.name : ModelDesc → String
  | .mk n _ _ => n

def ModelDesc.retainNone : ModelDesc → Bool
  | .mk _ r _ => r

def ModelDesc.fields : ModelDesc → List (String × FieldDesc)
  | .mk _ _ f => f

/-- `Field.convert` (fields.py:85-93): substitute the default for an absent
value, then apply the converter to a non-null value. -/
def baseConvert (dflt : Value) (conv : Option (Value → Value)) (v : Value) : Value :=
  let v1 := if v.isNull then dflt else v
  match conv with
  | some f => if v1.isNull then v1 else f v1
  | none => v1

/-- The `expected_types` runtime check of each kind.  A marked dict is still
a `MutableMapping`; a tuple is not a `MutableSequence`; a model instance is
not a mapping. -/
def kindTypeOK : FieldKind → Value → Bool
  | .stringK _ _, .vstr _ => true
  | .stringK _ _, _ => false
  | .intK _ _, .vint _ => true
  | .intK _ _, _ => false
  | .boolK, .vbool _ => true
  | .boolK, _ => false
  | .anyK, _ => true
  | .listK, .vlist _ => true
  | .listK, _ => false
  | .arrayK _, .vlist _ => true
  | .arrayK _, _ => false
  | .dictK, .vdict _ _ => true
  | .dictK, _ => false
  | .embeddedK _, .vdict _ _ => true
  | .embeddedK _, _ => false

/-- `Field.validate` (fields.py:95-102): a null value fails only when the
field is required; a non-null value must pass the runtime-type check and the
custom validator. -/
def baseValidate (req : Bool) (vald : Option (Value → Bool)) (kind : FieldKind)
    (v : Value) : Except Err Unit :=
  if v.isNull then
    if req then .error .missingField else .ok ()
  else if kindTypeOK kind v then
    match vald with
    | some f => if f v then .ok () else .error .validatorRejected
    | none => .ok ()
  else .error .typeMismatch

/-- `StringField.validate` extra bounds (fields.py:176-182): max length
first, then min length. -/
def checkStringBounds (maxL minL : Option Nat) (v : Value) : Except Err Unit :=
  match v with
  | .vstr s => do
      match maxL with
      | some m => if s.length > m then throw .boundsViolation else pure ()
      | none => pure ()
      match minL with
      | some m => if s.length < m then throw .boundsViolation else pure ()
      | none => pure ()
  | _ => .ok ()

/-- `NumberField.validate` extra bounds (fields.py:193-199) at the `IntField`
specialization: max value first, then min value. -/
def checkIntBounds (maxV minV : Option Int) (v : Value) : Except Err Unit :=
  match v with
  | .vint n => do
      match maxV with
      | some m => if n > m then throw .boundsViolation else pure ()
      | none => pure ()
      match minV with
      | some m => if n < m then throw .boundsViolation else pure ()
      | none => pure ()
  | _ => .ok ()

/-- The keys of the `EmbeddedField.fields` dict: the attribute names. -/
def fieldKeys (flds : List (String × FieldDesc)) : List String :=
  flds.map Prod.fst

/-- Whether the value is an instance of the model class with this name
(`isinstance(obj, self.model)` in fields.py:324). -/
def isModelInst (modelName : String) : Value → Bool
  | .vinst mn _ => mn = modelName
  | _ => false

/-- The `_data` backing map of a model instance (`obj.to_dict()`). -/
def instData : Value → List (String × Value)
  | .vinst _ d => d
  | _ => []

/-- Whether the value carries the `_skip_validate` marker
(`hasattr(obj, '_skip_validate')` in fields.py:356). -/
def hasSkipMark : Value → Bool
  | .vdict true _ => true
  | _ => false

/-- The passthrough loop of `EmbeddedField.convert` (fields.py:349-351):
copy every input entry whose key is not a declared attribute name into the
output dict unchanged. -/
def passthrough (attrNames : List String) : List (String × Value) →
    List (String × Value) → List (String × Value)
  | [], rv => rv
  | (k, v) :: rest, rv =>
      passthrough attrNames rest (if k ∈ attrNames then rv else dinsert rv k v)

mutual

/-- The `convert` of each field kind.
Scalar kinds: `Field.convert` (fields.py:85-93), which never raises.
Arrays: `ArrayField.convert` (fields.py:244-252) — base convert, null passes
through, a non-list non-tuple raises, else convert every element.
Embedded: `EmbeddedField.convert` (fields.py:323-353) — an instance of the
target model is trusted and its backing map returned with the
`_skip_validate` marker; anything else goes through `convertEmbeddedMap`. -/
def fconvert : FieldDesc → Value → Except Err Value
  | .mk _ _ dflt conv _ (.arrayK elem), v =>
      match baseConvert dflt conv v with
      | .vnull => .ok .vnull
      | .vlist xs => Except.map .vlist (convertList elem xs)
      | .vtuple xs => Except.map .vlist (convertList elem xs)
      | _ => .error .typeMismatch
  | .mk _ _ dflt conv _ (.embeddedK (.mk mname mrn mflds)), v =>
      if isModelInst mname v then .ok (.vdict true (instData v))
      else convertEmbeddedMap mrn mflds (baseConvert dflt conv v)
  | .mk _ _ dflt conv _ _, v => .ok (baseConvert dflt conv v)
termination_by fd _ => (sizeOf fd, 0)

/-- The non-trusted path of `EmbeddedField.convert` (fields.py:331-353), for
a model with `retain_none` flag `mrn` and field list `mflds`: null passes
through, a non-mapping raises, else run every declared field's convert
storing results under external names, then pass unknown keys through. -/
def convertEmbeddedMap (mrn : Bool) (mflds : List (String × FieldDesc)) (v1 : Value) :
    Except Err Value :=
  match v1 with
  | .vnull => .ok .vnull
  | .vdict _ es =>
      match convertFields mrn es mflds [] with
      | .error e => .error e
      | .ok rv => .ok (.vdict false (passthrough (fieldKeys mflds) es rv))
  | _ => .error .typeMismatch
termination_by (sizeOf mflds, 1)

/-- The element loop of `ArrayField.convert` (fields.py:252). -/
def convertList (elem : FieldDesc) : List Value → Except Err (List Value)
  | [] => .ok []
  | x :: xs => do
      let y ← fconvert elem x
      let ys ← convertList elem xs
      .ok (y :: ys)
termination_by vs => (sizeOf elem, 1 + sizeOf vs)

/-- The field loop of `EmbeddedField.convert` (fields.py:341-347): fetch the
input value by attribute name, convert it, store a non-null result under the
external name, store an explicit null only when `retain_none` is set. -/
def convertFields (retainNone : Bool) (obj : List (String × Value)) :
    List (String × FieldDesc) → List (String × Value) → Except Err (List (String × Value))
  | [], rv => .ok rv
  | (attr, fd) :: rest, rv => do
      let value ← fconvert fd ((dlookup obj attr).getD .vnull)
      convertFields retainNone obj rest
        (if value.isNull then (if retainNone then dinsert rv fd.name .vnull else rv)
         else dinsert rv fd.name value)
termination_by flds _ => (sizeOf flds, 0)

end

mutual

/-- The `validate` of each field kind.
Scalar kinds: `Field.validate` plus the string/int bounds overrides.
Arrays: `ArrayField.validate` (fields.py:254-260).
Embedded: `EmbeddedField.validate` (fields.py:355-371) — a value carrying
the `_skip_validate` marker returns immediately, before any other check;
the `warn_extra_data` loop only emits non-fatal warnings and affects no
result, so it is not modelled. -/
def fvalidate : FieldDesc → Value → Except Err Unit
  | .mk _ req _ _ vald (.arrayK elem), v => do
      baseValidate req vald (.arrayK elem) v
      match v with
      | .vlist xs => validateList elem xs
      | _ => .ok ()
  | .mk _ req _ _ vald (.embeddedK (.mk mname mrn mflds)), v =>
      if hasSkipMark v then .ok ()
      else do
        baseValidate req vald (.embeddedK (.mk mname mrn mflds)) v
        match v with
        | .vdict _ es => validateFields es mflds
        | _ => .ok ()
  | .mk _ req _ _ vald (.stringK maxL minL), v => do
      baseValidate req vald (.stringK maxL minL) v
      checkStringBounds maxL minL v
  | .mk _ req _ _ vald (.intK maxV minV), v => do
      baseValidate req vald (.intK maxV minV) v
      checkIntBounds maxV minV v
  | .mk _ req _ _ vald k, v => baseValidate req vald k v
termination_by fd _ => (sizeOf fd, 0)

/-- The element loop of `ArrayField.validate` (fields.py:259-260). -/
def validateList (elem : FieldDesc) : List Value → Except Err Unit
  | [] => .ok ()
  | x :: xs => do
      fvalidate elem x
      validateList elem xs
termination_by vs => (sizeOf elem, 1 + sizeOf vs)

/-- The field loop of `EmbeddedField.validate` (fields.py:363-365).  Note
the source fetches each field's value from the (already converted) map by
the field's ATTRIBUTE name, `obj.get(name)`, although `convert` stored it
under the field's external name. -/
def validateFields (obj : List (String × Value)) :
    List (String × FieldDesc) → Except Err Unit
  | [] => .ok ()
  | (attr, fd) :: rest => do
      fvalidate fd ((dlookup obj attr).getD .vnull)
      validateFields obj rest
termination_by flds => (sizeOf flds, 0)

end

/-- `ArrayField.innermost` (fields.py:262-269): follow the element
descriptor chain until the first non-array descriptor.  On a non-array
descriptor the function returns its argument, so that for an array field
built over element `e` the result is `e` itself when `e` is not an array. -/
def innermost : FieldDesc → FieldDesc
  | .mk _ _ _ _ _ (.arrayK e) => innermost e
  | f => f

/-- Whether a descriptor is an `EmbeddedField`. -/
def isEmbeddedFd : FieldDesc → Bool
  | .mk _ _ _ _ _ (.embeddedK _) => true
  | _ => false

/-- The entries of a mapping value.  The `_data` backing map of a model is
a mapping in every modelled scenario, so `from_data` applied to a value
extracts these entries. -/
def dictEntries : Value → List (String × Value)
  | .vdict _ es => es
  | _ => []

mutual

/-- The `walk` closure of `ArrayField._convert_data_in_list_to_model`
(fields.py:271-288).  `outer` is the outermost array field (the `self` whose
`innermost()` the source consults at every level), `af` the array descriptor
at the current level.  A non-list raises; if the innermost descriptor is not
embedded the list is returned unchanged; an embedded element level wraps
every entry via `from_data` (modelled as a `vinst` of the element's model);
an array element level recurses.  The final arm mirrors the source's
implicit `None` return and is unreachable on the descriptors the source
builds (the walk is only invoked on array descriptors whose chain ends at
the innermost field). -/
def walkArr (outer af : FieldDesc) (v : Value) : Except Err Value :=
  match v with
  | .vlist xs =>
      if isEmbeddedFd (innermost outer) then
        match af with
        | .mk _ _ _ _ _ (.arrayK (.mk _ _ _ _ _ (.embeddedK (.mk mname _ _)))) =>
            .ok (.vlist (xs.map (fun x => .vinst mname (dictEntries x))))
        | .mk _ _ _ _ _ (.arrayK (.mk en er ed ec ev (.arrayK e2))) =>
            Except.map .vlist (walkList outer (.mk en er ed ec ev (.arrayK e2)) xs)
        | _ => .ok .vnull
      else .ok (.vlist xs)
  | _ => .error .typeMismatch
termination_by (sizeOf af, 0)

/-- The list comprehension of the array-of-array case of `walk`
(fields.py:286). -/
def walkList (outer elem : FieldDesc) : List Value → Except Err (List Value)
  | [] => .ok []
  | x :: xs => do
      let y ← walkArr outer elem x
      let ys ← walkList outer elem xs
      .ok (y :: ys)
termination_by vs => (sizeOf elem, 1 + sizeOf vs)

end

/-- `ArrayField._convert_data_in_list_to_model` (fields.py:271-288):
`walk(self, values)`. -/
def materializeArray (fd : FieldDesc) (v : Value) : Except Err Value :=
  walkArr fd fd v

/-- `Field.__get__` (fields.py:104-130) on an instance: read the backing-map
entry by the field's external name (missing entry raises `AttributeError`);
a null entry is returned as-is before any cache interaction; a plain field
returns the stored value; an embedded or array field returns the cached
materialization, constructing and caching it on first read (embedded via
`from_data`, array via `_convert_data_in_list_to_model`).  Returns the value
together with the updated materialization cache (the instance `__dict__`
slots keyed by field name). -/
def fieldGet (fd : FieldDesc) (data cache : List (String × Value)) :
    Except Err (Value × List (String × Value)) :=
  match dlookup data fd.name with
  | none => .error .attrMissing
  | some v =>
      if v.isNull then .ok (.vnull, cache)
      else
        match fd.kind with
        | .embeddedK m =>
            (match dlookup cache fd.name with
             | some c => .ok (c, cache)
             | none =>
                 let rv : Value := .vinst m.name (dictEntries v)
                 .ok (rv, dinsert cache fd.name rv))
        | .arrayK _ =>
            (match dlookup cache fd.name with
             | some c => .ok (c, cache)
             | none => do
                 let rv ← materializeArray fd v
                 .ok (rv, dinsert cache fd.name rv))
        | _ => .ok (v, cache)

/-- `Field.__set__` (fields.py:132-148): convert then validate; a non-null
result is stored in the backing map under the external name and — for
embedded and array fields — immediately re-materialized into the cache; a
null result stores an explicit null entry when the owning class's
`retain_none` is set and removes the entry otherwise, and always drops the
cache slot.  (When array re-materialization raises, the source leaves the
already-updated backing map behind while the exception propagates; the
`Except` result of this model discards that partial write, which no theorem
below relies on.) -/
def fieldSet (retainNone : Bool) (fd : FieldDesc) (data cache : List (String × Value))
    (v : Value) : Except Err (List (String × Value) × List (String × Value)) := do
  let v1 ← fconvert fd v
  fvalidate fd v1
  if v1.isNull then
    .ok ((if retainNone then dinsert data fd.name .vnull else dpop data fd.name),
         dpop cache fd.name)
  else
    match fd.kind with
    | .embeddedK m =>
        .ok (dinsert data fd.name v1, dinsert cache fd.name (.vinst m.name (dictEntries v1)))
    | .arrayK _ => do
        let mv ← materializeArray fd v1
        .ok (dinsert data fd.name v1, dinsert cache fd.name mv)
    | _ => .ok (dinsert data fd.name v1, cache)

/-! ### Schema assembly: `ModelType._process_meta` (model.py:90-119) -/

/-- The `Meta` configuration block: `aliases` (already normalized to pairs,
model.py:102-103), `required`, `converters`, `validators`. -/
structure MetaCfg where
  aliases : List (String × String)
  required : List String
  converters : List (String × (Value → Value))
  validators : List (String × (Value → Bool))

/-- `ensure_field_exist` (model.py:98-100): the name is a key of the fields
dict. -/
def hasField (flds : List (String × FieldDesc)) (fname : String) : Bool :=
  flds.any (fun p => p.1 = fname)

/-- Mutate the descriptor stored under a field name (the source mutates the
shared descriptor object in place; the key set is unchanged). -/
def updateField (flds : List (String × FieldDesc)) (fname : String)
    (f : FieldDesc → FieldDesc) : List (String × FieldDesc) :=
  flds.map (fun p => if p.1 = fname then (p.1, f p.2) else p)

def FieldDesc.withName : FieldDesc → String → FieldDesc
  | .mk _ r d c v k, n => .mk n r d c v k

def FieldDesc.withRequired : FieldDesc → FieldDesc
  | .mk n _ d c v k => .mk n true d c v k

def FieldDesc.withConverter : FieldDesc → (Value → Value) → FieldDesc
  | .mk n r d _ v k, c => .mk n r d (some c) v k

def FieldDesc.withValidator : FieldDesc → (Value → Bool) → FieldDesc
  | .mk n r d c _ k, v => .mk n r d c (some v) k

/-- The shape shared by the four `_process_meta` loops (model.py:105-119):
for each configuration item, `ensure_field_exist` on its field name, then
mutate that field's descriptor. -/
def applyCfg {α : Type} (key : α → String) (upd : α → FieldDesc → FieldDesc) :
    List α → List (String × FieldDesc) → Except Err (List (String × FieldDesc))
  | [], flds => .ok flds
  | it :: rest, flds =>
      if hasField flds (key it) then
        applyCfg key upd rest (updateField flds (key it) (upd it))
      else .error .fieldNotFound

/-- The alias loop (model.py:105-107): `fields[field_name].name = alias`. -/
def applyAliases (al : List (String × String)) :
    List (String × FieldDesc) → Except Err (List (String × FieldDesc)) :=
  applyCfg Prod.fst (fun p fd => fd.withName p.2) al

/-- The required loop (model.py:109-111). -/
def applyRequired (req : List String) :
    List (String × FieldDesc) → Except Err (List (String × FieldDesc)) :=
  applyCfg (fun fn => fn) (fun _ fd => fd.withRequired) req

/-- The converter loop (model.py:113-115). -/
def applyConverters (cvs : List (String × (Value → Value))) :
    List (String × FieldDesc) → Except Err (List (String × FieldDesc)) :=
  applyCfg Prod.fst (fun p fd => fd.withConverter p.2) cvs

/-- The validator loop (model.py:117-119). -/
def applyValidators (vds : List (String × (Value → Bool))) :
    List (String × FieldDesc) → Except Err (List (String × FieldDesc)) :=
  applyCfg Prod.fst (fun p fd => fd.withValidator p.2) vds

/-- `ModelType._process_meta` (model.py:90-119): apply aliases, required
flags, converters and validators in that order; the first reference to an
undeclared field raises, aborting class creation (the metaclass runs this in
`__init__`, so the class object is never produced and the record type cannot
be used).  The source checks names against the fields dict captured before
the loops; every loop preserves the key set, so checking against the
current list is equivalent. -/
def processMeta (flds : List (String × FieldDesc)) (meta : MetaCfg) :
    Except Err (List (String × FieldDesc)) := do
  let f1 ← applyAliases meta.aliases flds
  let f2 ← applyRequired meta.required f1
  let f3 ← applyConverters meta.converters f2
  applyValidators meta.validators f3

/-! ### Construction: `BaseModel._clean` (model.py:171-181) -/

/-- The root descriptor `EmbeddedField().init_root(cls)` (model.py:176): an
embedded field with no name, not required, no default, no converter and no
validator, whose model is the class itself. -/
def rootFd (m : ModelDesc) : FieldDesc :=
  .mk "" false .vnull none none (.embeddedK m)

/-- `BaseModel._clean` without bypass flags (model.py:171-181): convert the
input through the root descriptor, validate the result, and return it as
the backing map. -/
def cleanData (m : ModelDesc) (d : Value) : Except Err Value := do
  let c ← fconvert (rootFd m) d
  fvalidate (rootFd m) c
  .ok c

/-! ### Dirty tracking: `BaseModel` (model.py:190-247) -/

/-- Python set semantics on a list of attribute names: `add` appends when
absent, `discard` removes. -/
def sadd (s : List String) (a : String) : List String :=
  if a ∈ s then s else s ++ [a]

def sdiscard (s : List String) (a : String) : List String :=
  s.filter (fun b => b ≠ a)

/-- The two marker sets of an instance, each `None` until first touched
(model.py:161-162). -/
structure Marks where
  modified : Option (List String)
  deleted : Option (List String)

/-- `BaseModel._init_marked_fields` (model.py:190-195). -/
def initMarks (m : Marks) : Marks :=
  ⟨some (m.modified.getD []), some (m.deleted.getD [])⟩

/-- `BaseModel.__setattr__` (model.py:227-238) restricted to its effect on
the marker sets: for a declared attribute, a null value with `retain_none`
unset marks the attribute deleted, anything else marks it modified, each
mark discarding the other. -/
def setattrMark (retainNone : Bool) (flds : List String) (name : String)
    (valueIsNull : Bool) (m : Marks) : Marks :=
  if name ∈ flds then
    let m1 := initMarks m
    if !retainNone && valueIsNull then
      ⟨some (sdiscard (m1.modified.getD []) name), some (sadd (m1.deleted.getD []) name)⟩
    else
      ⟨some (sadd (m1.modified.getD []) name), some (sdiscard (m1.deleted.getD []) name)⟩
  else m

/-- `BaseModel.__delattr__` (model.py:240-247) restricted to its effect on
the marker sets: deleting a declared attribute marks it deleted
unconditionally. -/
def delattrMark (flds : List String) (name : String) (m : Marks) : Marks :=
  if name ∈ flds then
    let m1 := initMarks m
    ⟨some (sdiscard (m1.modified.getD []) name), some (sadd (m1.deleted.getD []) name)⟩
  else m

/-- The marker states of an instance reachable from construction
(model.py:161-162 initializes both sets to `None`) through attribute writes
and deletes. -/
inductive MarksReachable : Marks → Prop where
  | init : MarksReachable ⟨none, none⟩
  | setStep (rn : Bool) (flds : List String) (name : String) (isNull : Bool)
      {m : Marks} : MarksReachable m → MarksReachable (setattrMark rn flds name isNull m)
  | delStep (flds : List String) (name : String) {m : Marks} :
      MarksReachable m → MarksReachable (delattrMark flds name m)

/-- A model instance as `_clear_marked_fields` sees it: its two marker sets
and the embedded-model instances currently materialized in its `__dict__`. -/
inductive MInst where
  | mk (modified : Option (List String)) (deleted : Option (List String))
       (nested : List (String × MInst))

def MInst.modified : MInst → Option (List String)
  | .mk mo _ _ => mo

def MInst.deleted : MInst → Option (List String)
  | .mk _ de _ => de

def MInst.nested : MInst → List (String × MInst)
  | .mk _ _ n => n

/-- Python truthiness of a marker set: `None` and the empty set are falsy. -/
def truthy : Option (List String) → Bool
  | none => false
  | some l => !l.isEmpty

mutual

/-- `BaseModel._clear_marked_fields` (model.py:197-205), verbatim: the first
guard clears the modified set when truthy; the SECOND guard re-tests
`_modified_fields` (not `_deleted_fields`) before clearing the deleted set,
and then recursion visits every materialized embedded instance. -/
def clearMarked : MInst → MInst
  | .mk mo de nested =>
      let mo1 := if truthy mo then some [] else mo
      let de1 := if truthy mo1 then some [] else de
      .mk mo1 de1 (clearNested nested)
termination_by i => sizeOf i

/-- The recursion of `_clear_marked_fields` over the materialized embedded
instances (model.py:203-205). -/
def clearNested : List (String × MInst) → List (String × MInst)
  | [] => []
  | (k, c) :: rest => (k, clearMarked c) :: clearNested rest
termination_by l => sizeOf l

end

/-! ### Helper lemmas -/

theorem dlookup_dinsert_self {α : Type} (d : List (String × α)) (k : String) (v : α) :
    dlookup (dinsert d k v) k = some v := by
  induction d with
  | nil => simp [dinsert, dlookup]
  | cons p rest ih =>
      obtain ⟨k1, v1⟩ := p
      by_cases h : k1 = k
      · subst h; simp [dinsert, dlookup]
      · simp [dinsert, dlookup, h, ih]

theorem dlookup_dinsert_ne {α : Type} (d : List (String × α)) {k1 k : String} (v : α)
    (h : k1 ≠ k) : dlookup (dinsert d k1 v) k = dlookup d k := by
  induction d with
  | nil => simp [dinsert, dlookup, h]
  | cons p rest ih =>
      obtain ⟨k2, v2⟩ := p
      by_cases h2 : k2 = k1
      · subst h2; simp [dinsert, dlookup, h]
      · simp [dinsert, dlookup, h2, ih]

theorem passthrough_lookup_notin (attrNames : List String) (obj : List (String × Value))
    {k : String} (h : k ∉ obj.map Prod.fst) (rv : List (String × Value)) :
    dlookup (passthrough attrNames obj rv) k = dlookup rv k := by
  induction obj generalizing rv with
  | nil => simp [passthrough]
  | cons p rest ih =>
      obtain ⟨k1, v1⟩ := p
      simp only [List.map_cons, List.mem_cons, not_or] at h
      rw [passthrough]
      rw [ih h.2]
      by_cases hm : k1 ∈ attrNames
      · simp [hm]
      · simp [hm, dlookup_dinsert_ne _ _ (Ne.symm h.1)]

theorem passthrough_lookup_mem (attrNames : List String) (obj : List (String × Value))
    {k : String} {vv : Value} (hk : k ∉ attrNames) (hv : dlookup obj k = some vv)
    (hnd : (obj.map Prod.fst).Nodup) (rv : List (String × Value)) :
    dlookup (passthrough attrNames obj rv) k = some vv := by
  induction obj generalizing rv with
  | nil => simp [dlookup] at hv
  | cons p rest ih =>
      obtain ⟨k1, v1⟩ := p
      simp only [List.map_cons, List.nodup_cons] at hnd
      by_cases h1 : k1 = k
      · subst h1
        rw [dlookup] at hv
        simp at hv
        subst hv
        rw [passthrough]
        rw [if_neg hk]
        rw [passthrough_lookup_notin _ _ hnd.1]
        exact dlookup_dinsert_self rv k1 _
      · rw [dlookup, if_neg h1] at hv
        rw [passthrough]
        exact ih hv hnd.2 _

/-- `Field.convert` of a null value is null for every kind whose default is
null: the default substitution yields null and the converter is skipped. -/
theorem fconvert_null (fd : FieldDesc) (h : fd.default = .vnull) :
    fconvert fd .vnull = .ok .vnull := by
  obtain ⟨n, r, d, c, v, k⟩ := fd
  simp only [FieldDesc.default] at h
  subst h
  cases k with
  | arrayK e => cases c <;> simp [fconvert, baseConvert, Value.isNull]
  | embeddedK m =>
      obtain ⟨mn, mrn, mflds⟩ := m
      cases c <;> simp [fconvert, isModelInst, baseConvert, Value.isNull, convertEmbeddedMap]
  | stringK a b => cases c <;> simp [fconvert, baseConvert, Value.isNull]
  | intK a b => cases c <;> simp [fconvert, baseConvert, Value.isNull]
  | boolK => cases c <;> simp [fconvert, baseConvert, Value.isNull]
  | anyK => cases c <;> simp [fconvert, baseConvert, Value.isNull]
  | listK => cases c <;> simp [fconvert, baseConvert, Value.isNull]
  | dictK => cases c <;> simp [fconvert, baseConvert, Value.isNull]

/-- `validate` accepts a null value for every non-required field: every
kind's checks are guarded on the value being non-null. -/
theorem fvalidate_null (fd : FieldDesc) (h : fd.required = false) :
    fvalidate fd .vnull = .ok () := by
  obtain ⟨n, r, d, c, v, k⟩ := fd
  simp only [FieldDesc.required] at h
  subst h
  cases k with
  | arrayK e => simp [fvalidate, baseValidate, Value.isNull, bind, Except.bind]
  | embeddedK m =>
      obtain ⟨mn, mrn, mflds⟩ := m
      simp [fvalidate, hasSkipMark, baseValidate, Value.isNull, bind, Except.bind]
  | stringK a b =>
      simp [fvalidate, baseValidate, Value.isNull, bind, Except.bind, checkStringBounds]
  | intK a b =>
      simp [fvalidate, baseValidate, Value.isNull, bind, Except.bind, checkIntBounds]
  | boolK => simp [fvalidate, baseValidate, Value.isNull]
  | anyK => simp [fvalidate, baseValidate, Value.isNull]
  | listK => simp [fvalidate, baseValidate, Value.isNull]
  | dictK => simp [fvalidate, baseValidate, Value.isNull]

/-- The element loop of `ArrayField.convert` is exactly elementwise
conversion: a successful result has the input's length and its i-th element
is the element descriptor's convert of the i-th input element. -/
theorem convertList_spec (elem : FieldDesc) (xs ys : List Value)
    (h : convertList elem xs = .ok ys) :
    ys.length = xs.length ∧
      ∀ i (h1 : i < xs.length) (h2 : i < ys.length),
        fconvert elem (xs.get ⟨i, h1⟩) = .ok (ys.get ⟨i, h2⟩) := by
  induction xs generalizing ys with
  | nil =>
      rw [convertList] at h
      simp at h
      subst h
      exact ⟨rfl, fun i h1 _ => absurd h1 (by simp)⟩
  | cons x rest ih =>
      rw [convertList] at h
      cases hx : fconvert elem x with
      | error e => rw [hx] at h; simp [bind, Except.bind] at h
      | ok y =>
          rw [hx] at h
          cases hrest : convertList elem rest with
          | error e => rw [hrest] at h; simp [bind, Except.bind] at h
          | ok ys1 =>
              rw [hrest] at h
              simp [bind, Except.bind, pure, Except.pure] at h
              subst h
              obtain ⟨hlen, helt⟩ := ih ys1 hrest
              refine ⟨by simp [hlen], ?_⟩
              intro i h1 h2
              cases i with
              | zero => simpa using hx
              | succ j =>
                  simp only [List.get] at helt ⊢
                  exact helt j (by simpa using h1) (by simpa using h2)

theorem updateField_hasField (flds : List (String × FieldDesc)) (fn : String)
    (f : FieldDesc → FieldDesc) (x : String) :
    hasField (updateField flds fn f) x = hasField flds x := by
  induction flds with
  | nil => rfl
  | cons p rest ih =>
      by_cases h : p.1 = fn <;> simp [updateField, hasField, List.any_cons, h] at ih ⊢ <;>
        simp [ih]

theorem applyCfg_hasField {α : Type} (key : α → String) (upd : α → FieldDesc → FieldDesc)
    (items : List α) {flds f1 : List (String × FieldDesc)}
    (h : applyCfg key upd items flds = .ok f1) (x : String) :
    hasField f1 x = hasField flds x := by
  induction items generalizing flds with
  | nil =>
      rw [applyCfg] at h
      cases h
      rfl
  | cons it rest ih =>
      rw [applyCfg] at h
      by_cases hf : hasField flds (key it) = true
      · rw [if_pos hf] at h
        rw [ih h, updateField_hasField]
      · rw [if_neg hf] at h
        cases h

theorem applyCfg_err {α : Type} (key : α → String) (upd : α → FieldDesc → FieldDesc)
    (items : List α) (flds : List (String × FieldDesc))
    (h : items.any (fun it => !hasField flds (key it)) = true) :
    applyCfg key upd items flds = .error .fieldNotFound := by
  induction items generalizing flds with
  | nil => simp at h
  | cons it rest ih =>
      rw [applyCfg]
      by_cases hf : hasField flds (key it) = true
      · rw [if_pos hf]
        apply ih
        rw [List.any_cons, hf] at h
        simpa [updateField_hasField] using h
      · rw [if_neg hf]

theorem applyCfg_error_eq {α : Type} (key : α → String) (upd : α → FieldDesc → FieldDesc)
    (items : List α) {flds : List (String × FieldDesc)} {e : Err}
    (h : applyCfg key upd items flds = .error e) : e = .fieldNotFound := by
  induction items generalizing flds with
  | nil => rw [applyCfg] at h; cases h
  | cons it rest ih =>
      rw [applyCfg] at h
      by_cases hf : hasField flds (key it) = true
      · rw [if_pos hf] at h
        exact ih h
      · rw [if_neg hf] at h
        cases h
        rfl

theorem mem_sadd {s : List String} {a b : String} : a ∈ sadd s b ↔ a ∈ s ∨ a = b := by
  by_cases h : b ∈ s
  · simp only [sadd, if_pos h]
    exact ⟨Or.inl, fun hh => hh.elim id (fun he => he ▸ h)⟩
  · simp [sadd, if_neg h]

theorem mem_sdiscard {s : List String} {a b : String} :
    a ∈ sdiscard s b ↔ a ∈ s ∧ a ≠ b := by
  simp [sdiscard, List.mem_filter]

/-! ### Concrete fixtures -/

/-- A plain string field whose attribute and external name agree. -/
def cityFd : FieldDesc := .mk "city" false .vnull none none (.stringK none none)

/-- A model with the single declared field `city`. -/
def mCity : ModelDesc := .mk "A" true [("city", cityFd)]

/-- A required string field declared under attribute name `city` whose
external alias is `c` (the state `Meta.aliases = {'city': 'c'}` and
`Meta.required = ['city']` leave behind). -/
def cityAliasedFd : FieldDesc := .mk "c" true .vnull none none (.stringK none none)

/-- A model with the single field `city`, aliased to `c` and required. -/
def mAliased : ModelDesc := .mk "M" true [("city", cityAliasedFd)]

/-- An integer element descriptor, as `ArrayField(IntField())` builds it. -/
def intElemFd : FieldDesc := .mk "" false .vnull none none (.intK none none)

/-- An array-of-int field. -/
def arrIntFd : FieldDesc := .mk "nums" false .vnull none none (.arrayK intElemFd)

/-- An array-of-array-of-embedded field over the `city` model. -/
def arr2Fd : FieldDesc :=
  .mk "tags" false .vnull none none
    (.arrayK (.mk "" false .vnull none none
      (.arrayK (.mk "" false .vnull none none (.embeddedK mCity)))))

/-! ### Claim theorems -/

/-- C1: the round-trip property fails on the code for a schema with an
aliased required field.  Conversion of the well-formed input
`{'city': 'NYC'}` succeeds and stores the converted value under the
external alias `c` (first conjunct), but `validate(convert(input))` — the
`_clean` pipeline — raises the missing-field error (second conjunct),
because `EmbeddedField.validate` fetches values by attribute name
(fields.py:365) while `convert` stored them under the alias
(fields.py:344); the code's own extra-data check (fields.py:368) treats the
map keys as external names, so the spec's round-trip property is the
intent and the attribute-name lookup a slip. -/
theorem monorm_c1_alias_roundtrip_fails :
    fconvert (rootFd mAliased) (.vdict false [("city", .vstr "NYC")])
      = .ok (.vdict false [("c", .vstr "NYC")])
    ∧ cleanData mAliased (.vdict false [("city", .vstr "NYC")])
      = .error .missingField := by
  constructor
  · simp [mAliased, cityAliasedFd, rootFd, fconvert, convertEmbeddedMap, convertFields,
          convertList, baseConvert, kindTypeOK, hasSkipMark, isModelInst, instData, dlookup,
          dinsert, passthrough, fieldKeys, Value.isNull, FieldDesc.name, bind, Except.bind,
          pure, Except.pure]
  · simp [cleanData, mAliased, cityAliasedFd, rootFd, fconvert, convertEmbeddedMap,
          convertFields, convertList, fvalidate, validateFields, validateList, baseConvert,
          baseValidate, kindTypeOK, hasSkipMark, isModelInst, instData, dlookup, dinsert,
          passthrough, fieldKeys, Value.isNull, checkStringBounds, FieldDesc.name, bind,
          Except.bind, pure, Except.pure]

/-- C2: `_clear_marked_fields` never empties the deleted set.  The first
conjunct shows the deleted set of any instance is returned unchanged (the
second guard, model.py:200, re-tests the just-cleared `_modified_fields`
instead of `_deleted_fields`); the second conjunct evaluates the operation
on an instance with modified set `{'a'}`, deleted set `{'x'}` and a
materialized nested instance with deleted set `{'y'}`: both deleted sets
survive, contradicting the claim that clearing empties both sets on the
instance and every materialized nested instance. -/
theorem monorm_c2_clear_leaves_deleted_set :
    (∀ (mo de : Option (List String)) (nested : List (String × MInst)),
        (clearMarked (.mk mo de nested)).deleted = de)
    ∧ clearMarked (.mk (some ["a"]) (some ["x"]) [("addr", .mk none (some ["y"]) [])])
        = .mk (some []) (some ["x"]) [("addr", .mk none (some ["y"]) [])] := by
  constructor
  · intro mo de nested
    simp only [clearMarked, MInst.deleted]
    by_cases h : truthy mo = true
    · rw [if_pos h]
      simp [truthy]
    · rw [if_neg h, if_neg h]
  · simp [clearMarked, clearNested, truthy]

/-- C3: `EmbeddedField.convert` on an already-constructed instance of the
target model returns the instance's backing map verbatim, marked
pre-validated (first conjunct, fields.py:323-329), and
`EmbeddedField.validate` on any marked map returns success immediately for
every field configuration — in particular for arbitrary (even
always-rejecting) validators and arbitrary nested fields, so no field's
converter or validator is consulted (second conjunct, fields.py:355-357). -/
theorem monorm_c3_trusted_instance_skips_validation :
    (∀ (nm : String) (req : Bool) (dflt : Value) (conv : Option (Value → Value))
        (vald : Option (Value → Bool)) (mn : String) (mrn : Bool)
        (mflds : List (String × FieldDesc)) (data : List (String × Value)),
      fconvert (.mk nm req dflt conv vald (.embeddedK (.mk mn mrn mflds))) (.vinst mn data)
        = .ok (.vdict true data))
    ∧ (∀ (nm : String) (req : Bool) (dflt : Value) (conv : Option (Value → Value))
        (vald : Option (Value → Bool)) (mn : String) (mrn : Bool)
        (mflds : List (String × FieldDesc)) (es : List (String × Value)),
      fvalidate (.mk nm req dflt conv vald (.embeddedK (.mk mn mrn mflds))) (.vdict true es)
        = .ok ()) := by
  constructor
  · intro nm req dflt conv vald mn mrn mflds data
    simp [fconvert, isModelInst, instData]
  · intro nm req dflt conv vald mn mrn mflds es
    simp [fvalidate, hasSkipMark]

/-- C9: `Field.__get__` on a backing map without an entry for the field's
external name raises the attribute-missing error instead of returning null
or the default (first conjunct, fields.py:109-113), and on an explicit null
entry returns null with the materialization cache untouched — the null
check precedes every cache interaction, for every field kind and every
cache content (second conjunct, fields.py:114-115). -/
theorem monorm_c9_get_missing_raises_null_skips_cache :
    ∀ (fd : FieldDesc) (data cache : List (String × Value)),
      (dlookup data fd.name = none → fieldGet fd data cache = .error .attrMissing)
      ∧ (dlookup data fd.name = some .vnull → fieldGet fd data cache = .ok (.vnull, cache)) := by
  intro fd data cache
  constructor
  · intro h
    simp [fieldGet, h]
  · intro h
    simp [fieldGet, h, Value.isNull]

/-- Witness for C9: on the empty backing map the read of `city` raises the
attribute-missing error; on a backing map with an explicit null entry it
returns null and leaves a non-empty cache unchanged. -/
theorem monorm_c9_witness :
    (dlookup ([] : List (String × Value)) cityFd.name = none
      ∧ fieldGet cityFd [] [] = .error .attrMissing)
    ∧ (dlookup [("city", Value.vnull)] cityFd.name = some .vnull
      ∧ fieldGet cityFd [("city", Value.vnull)] [("city", Value.vstr "z")]
          = .ok (.vnull, [("city", Value.vstr "z")])) :=
  ⟨⟨rfl, (monorm_c9_get_missing_raises_null_skips_cache cityFd [] []).1 rfl⟩,
   ⟨rfl, (monorm_c9_get_missing_raises_null_skips_cache cityFd
      [("city", Value.vnull)] [("city", Value.vstr "z")]).2 rfl⟩⟩

/-- C4: the dirty-mark transitions of `__setattr__`/`__delattr__`
(model.py:227-247).  Writing a non-null value, or writing null while
`retain_none` is set, puts the attribute in the modified set and out of the
deleted set (first conjunct); writing null with `retain_none` unset (second
conjunct) or an explicit delete (third conjunct) puts it in the deleted set
and out of the modified set; and over every reachable marker state no
attribute is ever in both sets (fourth conjunct). -/
theorem monorm_c4_dirty_mark_transitions :
    (∀ (rn : Bool) (flds : List String) (name : String) (isNull : Bool) (m : Marks),
        name ∈ flds → (rn = true ∨ isNull = false) →
          name ∈ (setattrMark rn flds name isNull m).modified.getD []
          ∧ name ∉ (setattrMark rn flds name isNull m).deleted.getD [])
    ∧ (∀ (flds : List String) (name : String) (m : Marks), name ∈ flds →
          name ∈ (setattrMark false flds name true m).deleted.getD []
          ∧ name ∉ (setattrMark false flds name true m).modified.getD [])
    ∧ (∀ (flds : List String) (name : String) (m : Marks), name ∈ flds →
          name ∈ (delattrMark flds name m).deleted.getD []
          ∧ name ∉ (delattrMark flds name m).modified.getD [])
    ∧ (∀ (m : Marks), MarksReachable m →
          ∀ a, ¬(a ∈ m.modified.getD [] ∧ a ∈ m.deleted.getD [])) := by
  refine ⟨?_, ?_, ?_, ?_⟩
  · intro rn flds name isNull m hf hc
    rw [setattrMark, if_pos hf]
    have hb : (!rn && isNull) = false := by
      rcases hc with rfl | rfl <;> simp
    rw [hb]
    simp [initMarks, mem_sadd, mem_sdiscard]
  · intro flds name m hf
    rw [setattrMark, if_pos hf]
    simp [initMarks, mem_sadd, mem_sdiscard]
  · intro flds name m hf
    rw [delattrMark, if_pos hf]
    simp [initMarks, mem_sadd, mem_sdiscard]
  · intro m hm
    induction hm with
    | init => intro a ha; simp at ha
    | setStep rn flds name isNull hr ih =>
        intro a ha
        rw [setattrMark] at ha
        by_cases hf : name ∈ flds
        · rw [if_pos hf] at ha
          by_cases hb : (!rn && isNull) = true
          · rw [if_pos hb] at ha
            simp only [Marks.modified, Marks.deleted, Option.getD, initMarks] at ha
            rw [mem_sdiscard, mem_sadd] at ha
            rcases ha with ⟨⟨h1, hne⟩, h2 | rfl⟩
            · exact ih a ⟨h1, h2⟩
            · exact hne rfl
          · rw [if_neg hb] at ha
            simp only [Marks.modified, Marks.deleted, Option.getD, initMarks] at ha
            rw [mem_sadd, mem_sdiscard] at ha
            rcases ha with ⟨h1 | rfl, h2, hne⟩
            · exact ih a ⟨h1, h2⟩
            · exact hne rfl
        · rw [if_neg hf] at ha
          exact ih a ha
    | delStep flds name hr ih =>
        intro a ha
        rw [delattrMark] at ha
        by_cases hf : name ∈ flds
        · rw [if_pos hf] at ha
          simp only [Marks.modified, Marks.deleted, Option.getD, initMarks] at ha
          rw [mem_sdiscard, mem_sadd] at ha
          rcases ha with ⟨⟨h1, hne⟩, h2 | rfl⟩
          · exact ih a ⟨h1, h2⟩
          · exact hne rfl
        · rw [if_neg hf] at ha
          exact ih a ha

/-- Witness for C4: a non-null write to the declared attribute `a` of a
fresh instance marks it modified and not deleted, and the state reached by
a delete of `b` does not hold `b` in both sets. -/
theorem monorm_c4_witness :
    ("a" ∈ (["a"] : List String)
      ∧ "a" ∈ (setattrMark true ["a"] "a" false ⟨none, none⟩).modified.getD []
      ∧ "a" ∉ (setattrMark true ["a"] "a" false ⟨none, none⟩).deleted.getD [])
    ∧ ¬("b" ∈ (delattrMark ["b"] "b" ⟨none, none⟩).modified.getD []
        ∧ "b" ∈ (delattrMark ["b"] "b" ⟨none, none⟩).deleted.getD []) :=
  ⟨⟨by decide,
    (monorm_c4_dirty_mark_transitions.1 true ["a"] "a" false ⟨none, none⟩
      (by decide) (Or.inl rfl)).1,
    (monorm_c4_dirty_mark_transitions.1 true ["a"] "a" false ⟨none, none⟩
      (by decide) (Or.inl rfl)).2⟩,
   monorm_c4_dirty_mark_transitions.2.2.2 _
     (MarksReachable.delStep ["b"] "b" MarksReachable.init) "b"⟩

/-- C5: the `retain_none` policy on null stores.  First conjunct
(`Field.__set__`, fields.py:143-148): writing null to a field with a null
default stores an explicit null under the external name when `retain_none`
is set and removes the entry otherwise, the cache slot dropping either way.
Second conjunct (`EmbeddedField.convert`, fields.py:343-347): converting a
map in which the declared field is absent stores an explicit null entry for
it exactly when the model's `retain_none` is set. -/
theorem monorm_c5_null_write_policy :
    (∀ (rn : Bool) (fd : FieldDesc) (data cache : List (String × Value)),
        fd.default = .vnull → fd.required = false →
        fieldSet rn fd data cache .vnull =
          .ok ((if rn then dinsert data fd.name .vnull else dpop data fd.name),
               dpop cache fd.name))
    ∧ (∀ (mn : String) (rn : Bool) (attr : String) (fd : FieldDesc),
        fd.default = .vnull →
        fconvert (rootFd (.mk mn rn [(attr, fd)])) (.vdict false []) =
          .ok (.vdict false (if rn then [(fd.name, Value.vnull)] else []))) := by
  constructor
  · intro rn fd data cache h1 h2
    simp [fieldSet, fconvert_null fd h1, fvalidate_null fd h2, bind, Except.bind,
          Value.isNull]
  · intro mn rn attr fd h
    have hf := fconvert_null fd h
    rw [rootFd]
    by_cases hrn : rn = true <;>
      simp [hrn, fconvert, isModelInst, baseConvert, Value.isNull, convertEmbeddedMap,
            convertFields, dlookup, passthrough, fieldKeys, dinsert, hf, bind, Except.bind]

/-- Witness for C5: writing null to `city` with `retain_none` set stores an
explicit null and empties the cache slot; with it unset the entry is
removed; converting the empty map against a one-field model stores a null
entry exactly when `retain_none` is set. -/
theorem monorm_c5_witness :
    fieldSet true cityFd [("x", Value.vint 1)] [("city", Value.vstr "q")] .vnull
        = .ok ([("x", Value.vint 1), ("city", Value.vnull)], [])
    ∧ fieldSet false cityFd [("city", Value.vstr "q")] [] .vnull = .ok ([], [])
    ∧ fconvert (rootFd (.mk "B" true [("city", cityFd)])) (.vdict false [])
        = .ok (.vdict false [("city", Value.vnull)])
    ∧ fconvert (rootFd (.mk "B" false [("city", cityFd)])) (.vdict false [])
        = .ok (.vdict false []) :=
  ⟨monorm_c5_null_write_policy.1 true cityFd [("x", Value.vint 1)]
      [("city", Value.vstr "q")] rfl rfl,
   monorm_c5_null_write_policy.1 false cityFd [("city", Value.vstr "q")] [] rfl rfl,
   monorm_c5_null_write_policy.2 "B" true "city" cityFd rfl,
   monorm_c5_null_write_policy.2 "B" false "city" cityFd rfl⟩

/-- C6: array innermost-kind dispatch.  The innermost descriptor is found by
recursing through nested array descriptors (first and second conjuncts,
fields.py:262-269); the read-time walk returns a stored list unchanged when
the innermost kind is not embedded (third conjunct, fields.py:276-277) and
wraps every element into a model instance at an embedded element level
(fourth conjunct, fields.py:281-283); on the concrete
array-of-array-of-embedded field, materializing `[[{'city': 'NYC'}]]`
builds instances at depth two (fifth conjunct); and `ArrayField.convert` of
a string raises the type-mismatch error (sixth conjunct,
fields.py:249-250). -/
theorem monorm_c6_array_innermost_and_materialization :
    (∀ (n : String) (r : Bool) (d : Value) (c : Option (Value → Value))
        (v : Option (Value → Bool)) (e : FieldDesc),
        innermost (.mk n r d c v (.arrayK e)) = innermost e)
    ∧ (∀ (fd : FieldDesc), (∀ e, fd.kind ≠ .arrayK e) → innermost fd = fd)
    ∧ (∀ (outer af : FieldDesc) (xs : List Value),
        isEmbeddedFd (innermost outer) = false →
        walkArr outer af (.vlist xs) = .ok (.vlist xs))
    ∧ (∀ (outer : FieldDesc) (nm : String) (r : Bool) (d : Value)
        (c : Option (Value → Value)) (vd : Option (Value → Bool))
        (en : String) (er : Bool) (ed : Value) (ec : Option (Value → Value))
        (ev : Option (Value → Bool)) (mn : String) (mrn : Bool)
        (mflds : List (String × FieldDesc)) (xs : List Value),
        isEmbeddedFd (innermost outer) = true →
        walkArr outer
            (.mk nm r d c vd
              (.arrayK (.mk en er ed ec ev (.embeddedK (.mk mn mrn mflds)))))
            (.vlist xs)
          = .ok (.vlist (xs.map (fun x => .vinst mn (dictEntries x)))))
    ∧ (materializeArray arr2Fd (.vlist [.vlist [.vdict false [("city", .vstr "NYC")]]])
        = .ok (.vlist [.vlist [.vinst "A" [("city", .vstr "NYC")]]]))
    ∧ (∀ (elem : FieldDesc) (n : String) (r : Bool) (dflt : Value)
        (vald : Option (Value → Bool)) (s : String),
        fconvert (.mk n r dflt none vald (.arrayK elem)) (.vstr s)
          = .error .typeMismatch) := by
  refine ⟨?_, ?_, ?_, ?_, ?_, ?_⟩
  · intro n r d c v e
    simp [innermost]
  · intro fd h
    obtain ⟨n, r, d, c, v, k⟩ := fd
    cases k with
    | arrayK e => exact absurd rfl (h e)
    | stringK a b => simp [innermost]
    | intK a b => simp [innermost]
    | boolK => simp [innermost]
    | anyK => simp [innermost]
    | listK => simp [innermost]
    | dictK => simp [innermost]
    | embeddedK m => simp [innermost]
  · intro outer af xs h
    obtain ⟨n2, r2, d2, c2, v2, k2⟩ := af
    cases k2 with
    | arrayK e =>
        obtain ⟨n3, r3, d3, c3, v3, k3⟩ := e
        cases k3 with
        | embeddedK m =>
            obtain ⟨mn, mrn, mf⟩ := m
            simp [walkArr, h]
        | arrayK e2 => simp [walkArr, h]
        | stringK a b => simp [walkArr, h]
        | intK a b => simp [walkArr, h]
        | boolK => simp [walkArr, h]
        | anyK => simp [walkArr, h]
        | listK => simp [walkArr, h]
        | dictK => simp [walkArr, h]
    | embeddedK m =>
        obtain ⟨mn, mrn, mf⟩ := m
        simp [walkArr, h]
    | stringK a b => simp [walkArr, h]
    | intK a b => simp [walkArr, h]
    | boolK => simp [walkArr, h]
    | anyK => simp [walkArr, h]
    | listK => simp [walkArr, h]
    | dictK => simp [walkArr, h]
  · intro outer nm r d c vd en er ed ec ev mn mrn mflds xs h
    simp [walkArr, h]
  · simp [materializeArray, arr2Fd, mCity, cityFd, walkArr, walkList, innermost,
          isEmbeddedFd, dictEntries, bind, Except.bind, Except.map]
  · intro elem n r dflt vald s
    simp [fconvert, baseConvert, Value.isNull]

/-- Witness for C6: the string field is not an array so its innermost
descriptor is itself; for the array-of-int field (innermost not embedded)
the walk returns the stored list unchanged; for the
array-of-array-of-embedded field (innermost embedded) an embedded element
level wraps entries into instances. -/
theorem monorm_c6_witness :
    ((∀ e, cityFd.kind ≠ FieldKind.arrayK e) ∧ innermost cityFd = cityFd)
    ∧ (isEmbeddedFd (innermost arrIntFd) = false
        ∧ walkArr arrIntFd arrIntFd (.vlist [.vint 5]) = .ok (.vlist [.vint 5]))
    ∧ (isEmbeddedFd (innermost arr2Fd) = true
        ∧ walkArr arr2Fd
            (.mk "" false .vnull none none
              (.arrayK (.mk "" false .vnull none none (.embeddedK (.mk "A" true [("city", cityFd)])))))
            (.vlist [.vdict false [("city", .vstr "NYC")]])
          = .ok (.vlist [.vinst "A" [("city", .vstr "NYC")]])) :=
  ⟨⟨by simp [cityFd, FieldDesc.kind],
    monorm_c6_array_innermost_and_materialization.2.1 cityFd (by simp [cityFd, FieldDesc.kind])⟩,
   ⟨by simp [innermost, arrIntFd, intElemFd, isEmbeddedFd],
    monorm_c6_array_innermost_and_materialization.2.2.1 arrIntFd arrIntFd [.vint 5]
      (by simp [innermost, arrIntFd, intElemFd, isEmbeddedFd])⟩,
   ⟨by simp [innermost, arr2Fd, mCity, cityFd, isEmbeddedFd],
    monorm_c6_array_innermost_and_materialization.2.2.2.1 arr2Fd "" false .vnull none none
      "" false .vnull none none "A" true [("city", cityFd)]
      [.vdict false [("city", .vstr "NYC")]]
      (by simp [innermost, arr2Fd, mCity, cityFd, isEmbeddedFd])⟩⟩

/-- C7: unknown-key passthrough of `EmbeddedField.convert`
(fields.py:349-351): whenever conversion of a map succeeds, every input
entry whose key is not a declared attribute name appears unchanged in the
output map. -/
theorem monorm_c7_unknown_key_passthrough :
    ∀ (nm : String) (req : Bool) (dflt : Value) (vald : Option (Value → Bool))
      (mn : String) (mrn : Bool) (mflds : List (String × FieldDesc)) (sk : Bool)
      (obj out : List (String × Value)) (k : String) (vv : Value),
      fconvert (.mk nm req dflt none vald (.embeddedK (.mk mn mrn mflds))) (.vdict sk obj)
        = .ok (.vdict false out) →
      k ∉ fieldKeys mflds → dlookup obj k = some vv → (obj.map Prod.fst).Nodup →
      dlookup out k = some vv := by
  intro nm req dflt vald mn mrn mflds sk obj out k vv h hk hv hnd
  have h2 : convertEmbeddedMap mrn mflds (.vdict sk obj) = .ok (.vdict false out) := by
    simpa [fconvert, isModelInst, baseConvert, Value.isNull] using h
  simp only [convertEmbeddedMap] at h2
  cases hc : convertFields mrn obj mflds [] with
  | error e => rw [hc] at h2; cases h2
  | ok rv =>
      rw [hc] at h2
      have hout : passthrough (fieldKeys mflds) obj rv = out := by
        cases h2
        rfl
      rw [← hout]
      exact passthrough_lookup_mem _ _ hk hv hnd rv

/-- Witness for C7: converting `{'city': 'NYC', 'note': 'x'}` against the
one-field `city` model keeps the undeclared entry `'note': 'x'` in the
output map. -/
theorem monorm_c7_witness :
    (fconvert (.mk "" false .vnull none none (.embeddedK mCity))
        (.vdict false [("city", .vstr "NYC"), ("note", .vstr "x")])
      = .ok (.vdict false [("city", .vstr "NYC"), ("note", .vstr "x")]))
    ∧ dlookup [("city", Value.vstr "NYC"), ("note", Value.vstr "x")] "note"
        = some (.vstr "x") :=
  ⟨by simp [mCity, cityFd, fconvert, convertEmbeddedMap, convertFields, baseConvert,
        isModelInst, dlookup, dinsert, passthrough, fieldKeys, Value.isNull,
        FieldDesc.name, bind, Except.bind],
   monorm_c7_unknown_key_passthrough "" false .vnull none "A" true [("city", cityFd)]
     false [("city", .vstr "NYC"), ("note", .vstr "x")]
     [("city", .vstr "NYC"), ("note", .vstr "x")] "note" (.vstr "x")
     (by simp [mCity, cityFd, fconvert, convertEmbeddedMap, convertFields, baseConvert,
           isModelInst, dlookup, dinsert, passthrough, fieldKeys, Value.isNull,
           FieldDesc.name, bind, Except.bind])
     (by decide) rfl (by decide)⟩

/-- C8: `_process_meta` raises the configuration error whenever any of the
four configuration blocks references a field name not declared on the
record type (model.py:90-119); the error aborts class registration, so the
type is never produced. -/
theorem monorm_c8_meta_undeclared_field_fatal :
    ∀ (flds : List (String × FieldDesc)) (meta : MetaCfg),
      (meta.aliases.any (fun p => !hasField flds p.1) = true
        ∨ meta.required.any (fun fn => !hasField flds fn) = true
        ∨ meta.converters.any (fun p => !hasField flds p.1) = true
        ∨ meta.validators.any (fun p => !hasField flds p.1) = true) →
      processMeta flds meta = .error .fieldNotFound := by
  intro flds meta h
  rw [processMeta]
  rcases h with h | h | h | h
  · rw [applyAliases, applyCfg_err _ _ _ _ h]
    rfl
  · cases ha : applyAliases meta.aliases flds with
    | error e =>
        rw [applyAliases] at ha
        have he := applyCfg_error_eq _ _ _ ha
        subst he
        simp [ha, applyAliases, bind, Except.bind]
    | ok f1 =>
        have hk : ∀ x, hasField f1 x = hasField flds x := by
          intro x
          rw [applyAliases] at ha
          exact applyCfg_hasField _ _ _ ha x
        have hr : meta.required.any (fun fn => !hasField f1 fn) = true := by
          simp only [hk]
          exact h
        simp only [ha, bind, Except.bind]
        rw [applyRequired, applyCfg_err _ _ _ _ hr]
  · cases ha : applyAliases meta.aliases flds with
    | error e =>
        rw [applyAliases] at ha
        have he := applyCfg_error_eq _ _ _ ha
        subst he
        simp [ha, applyAliases, bind, Except.bind]
    | ok f1 =>
        have hk1 : ∀ x, hasField f1 x = hasField flds x := by
          intro x
          rw [applyAliases] at ha
          exact applyCfg_hasField _ _ _ ha x
        simp only [ha, bind, Except.bind]
        cases hb : applyRequired meta.required f1 with
        | error e =>
            rw [applyRequired] at hb
            have he := applyCfg_error_eq _ _ _ hb
            subst he
            simp [hb, applyRequired, bind, Except.bind]
        | ok f2 =>
            have hk2 : ∀ x, hasField f2 x = hasField flds x := by
              intro x
              rw [applyRequired] at hb
              rw [applyCfg_hasField _ _ _ hb x, hk1]
            have hc : meta.converters.any (fun p => !hasField f2 p.1) = true := by
              simp only [hk2]
              exact h
            simp only [hb, bind, Except.bind]
            rw [applyConverters, applyCfg_err _ _ _ _ hc]
  · cases ha : applyAliases meta.aliases flds with
    | error e =>
        rw [applyAliases] at ha
        have he := applyCfg_error_eq _ _ _ ha
        subst he
        simp [ha, applyAliases, bind, Except.bind]
    | ok f1 =>
        have hk1 : ∀ x, hasField f1 x = hasField flds x := by
          intro x
          rw [applyAliases] at ha
          exact applyCfg_hasField _ _ _ ha x
        simp only [ha, bind, Except.bind]
        cases hb : applyRequired meta.required f1 with
        | error e =>
            rw [applyRequired] at hb
            have he := applyCfg_error_eq _ _ _ hb
            subst he
            simp [hb, applyRequired, bind, Except.bind]
        | ok f2 =>
            have hk2 : ∀ x, hasField f2 x = hasField flds x := by
              intro x
              rw [applyRequired] at hb
              rw [applyCfg_hasField _ _ _ hb x, hk1]
            simp only [hb, bind, Except.bind]
            cases hcv : applyConverters meta.converters f2 with
            | error e =>
                rw [applyConverters] at hcv
                have he := applyCfg_error_eq _ _ _ hcv
                subst he
                simp [hcv, applyConverters, bind, Except.bind]
            | ok f3 =>
                have hk3 : ∀ x, hasField f3 x = hasField flds x := by
                  intro x
                  rw [applyConverters] at hcv
                  rw [applyCfg_hasField _ _ _ hcv x, hk2]
                have hv : meta.validators.any (fun p => !hasField f3 p.1) = true := by
                  simp only [hk3]
                  exact h
                simp only [hcv, bind, Except.bind]
                rw [applyValidators, applyCfg_err _ _ _ _ hv]

/-- A configuration block aliasing the undeclared field `nickname`. -/
def metaBad : MetaCfg := ⟨[("nickname", "n")], [], [], []⟩

/-- Witness for C8: the schema declaring only `city` combined with a
configuration aliasing `nickname` fails with the configuration error. -/
theorem monorm_c8_witness :
    (metaBad.aliases.any (fun p => !hasField [("city", cityFd)] p.1) = true)
    ∧ processMeta [("city", cityFd)] metaBad = .error .fieldNotFound :=
  ⟨by decide,
   monorm_c8_meta_undeclared_field_fatal [("city", cityFd)] metaBad
     (Or.inl (by decide))⟩

/-- C10: `ArrayField.convert` (fields.py:244-252) for a field with no
field-level converter: a tuple converts exactly as the corresponding list
(first conjunct); a successful conversion of a list returns a new list of
the same length whose i-th element is the element descriptor's convert of
the i-th input element (second conjunct); and a null input with a null
default returns null without raising (third conjunct). -/
theorem monorm_c10_array_convert_elementwise :
    ∀ (n : String) (r : Bool) (dflt : Value) (vald : Option (Value → Bool))
      (elem : FieldDesc) (xs ys : List Value),
      (fconvert (.mk n r dflt none vald (.arrayK elem)) (.vtuple xs)
        = fconvert (.mk n r dflt none vald (.arrayK elem)) (.vlist xs))
      ∧ (fconvert (.mk n r dflt none vald (.arrayK elem)) (.vlist xs) = .ok (.vlist ys) →
          ys.length = xs.length ∧
            ∀ i (h1 : i < xs.length) (h2 : i < ys.length),
              fconvert elem (xs.get ⟨i, h1⟩) = .ok (ys.get ⟨i, h2⟩))
      ∧ (dflt = .vnull →
          fconvert (.mk n r dflt none vald (.arrayK elem)) .vnull = .ok .vnull) := by
  intro n r dflt vald elem xs ys
  refine ⟨?_, ?_, ?_⟩
  · simp [fconvert, baseConvert, Value.isNull]
  · intro h
    have h2 : Except.map Value.vlist (convertList elem xs) = .ok (.vlist ys) := by
      simpa [fconvert, baseConvert, Value.isNull] using h
    cases hc : convertList elem xs with
    | error e => rw [hc] at h2; simp [Except.map] at h2
    | ok zs =>
        rw [hc] at h2
        simp only [Except.map] at h2
        cases h2
        exact convertList_spec elem xs ys hc
  · intro h
    subst h
    exact fconvert_null _ rfl

/-- Witness for C10: the tuple `(3,)` converts like the list `[3]` through
the array-of-int field, elementwise conversion holds at every index of the
result, and a null input returns null. -/
theorem monorm_c10_witness :
    (fconvert arrIntFd (.vtuple [.vint 3]) = fconvert arrIntFd (.vlist [.vint 3]))
    ∧ (fconvert arrIntFd (.vlist [.vint 3]) = .ok (.vlist [.vint 3]))
    ∧ ([Value.vint 3].length = [Value.vint 3].length
        ∧ ∀ i (h1 : i < [Value.vint 3].length) (h2 : i < [Value.vint 3].length),
            fconvert intElemFd ([Value.vint 3].get ⟨i, h1⟩)
              = .ok ([Value.vint 3].get ⟨i, h2⟩))
    ∧ fconvert arrIntFd .vnull = .ok .vnull :=
  ⟨(monorm_c10_array_convert_elementwise "nums" false .vnull none intElemFd
      [.vint 3] [.vint 3]).1,
   by simp [arrIntFd, intElemFd, fconvert, convertList, baseConvert, Value.isNull,
        bind, Except.bind, Except.map],
   (monorm_c10_array_convert_elementwise "nums" false .vnull none intElemFd
      [.vint 3] [.vint 3]).2.1
     (by simp [arrIntFd, intElemFd, fconvert, convertList, baseConvert, Value.isNull,
           bind, Except.bind, Except.map]),
   (monorm_c10_array_convert_elementwise "nums" false .vnull none intElemFd
      [.vint 3] [.vint 3]).2.2 rfl⟩

end Monorm
